import Mathlib

/-!
Verification development for the RAG pipeline of this repository.

Shallow embedding of the three core modules:
- the retrieval module (semanticSearch): hybrid semantic + filename search with
  deduplication and truncation;
- the ingestion module (initSchema, cloneRepo, isGitHubUrl, ingestRepo): schema
  provisioning, repository acquisition, file selection, chunking, batched upsert
  and temp-directory cleanup;
- the answer module (askCodebase): context formatting and the language-model
  prompt.

Modeling conventions: every provider call (vector store, filesystem, git,
language model) is resolved through an explicit environment record whose fields
say how that call would complete; a rejected promise is an .error value.
Filesystem paths on the ingestion side are modeled as lists of path segments
(the strings between the slashes). JS string concatenation and prefix and
suffix tests are modeled on the underlying character lists.
-/

namespace PrismRag

/-- Equality of Except values is decidable when it is on both sides. -/
instance {ε α : Type} [DecidableEq ε] [DecidableEq α] : DecidableEq (Except ε α) := fun a b =>
  match a, b with
  | .error e1, .error e2 =>
    if h : e1 = e2 then .isTrue (by rw [h]) else .isFalse (by simp [h])
  | .ok v1, .ok v2 =>
    if h : v1 = v2 then .isTrue (by rw [h]) else .isFalse (by simp [h])
  | .error _, .ok _ => .isFalse (by simp)
  | .ok _, .error _ => .isFalse (by simp)

/-- Decidable string suffix test (models JS String.prototype.endsWith and the
suffix part of glob patterns). -/
def strEndsWith (s pat : String) : Bool := pat.data.isSuffixOf s.data

/-- Decidable string prefix test (models JS String.prototype.startsWith). -/
def strStartsWith (s pat : String) : Bool := pat.data.isPrefixOf s.data

/-! ## Retrieval module (semanticSearch) -/

/-- A stored object as returned by the vector-search provider for the
CodeSnippet class; the query selects the fields
code filename language startLine endLine. -/
structure DbItem where
  code : String
  filename : String
  language : String
  startLine : Nat
  endLine : Option Nat
deriving DecidableEq

/-- The query-time projection returned by semanticSearch:
item mapped to (code, filename, line := item.startLine). -/
structure RetrievalResult where
  code : String
  filename : String
  line : Nat
deriving DecidableEq

/-- The JS regex class backslash-w: ASCII letters, digits and underscore. -/
def isWordChar (c : Char) : Bool := c.isAlphanum || c == '_'

/-- The regex character class of word characters plus hyphen. -/
def isClassChar (c : Char) : Bool := isWordChar c || c == '-'

/-- Longest prefix run of characters satisfying p, paired with the rest. -/
def takeRun (p : Char → Bool) : List Char → List Char × List Char
  | [] => ([], [])
  | c :: cs =>
    if p c then
      let r := takeRun p cs
      (c :: r.1, r.2)
    else ([], c :: cs)

/-- One attempted match, at the current position, of the filename regex of the
retrieval module (word boundary, then one or more word-or-hyphen characters,
then a literal dot, then one or more word characters, then a word boundary).
Because the dot is not in the first character class, the greedy first run never
backtracks, and the trailing word boundary always holds after a maximal word
run, so the regex semantics collapse to this direct scan. -/
def matchHere (prevIsWord : Bool) (cs : List Char) : Option (List Char) :=
  match cs with
  | [] => none
  | c :: _ =>
    if isClassChar c = false then none
    else if prevIsWord = isWordChar c then none
    else
      let r1 := takeRun isClassChar cs
      match r1.2 with
      | '.' :: rest2 =>
        let r2 := takeRun isWordChar rest2
        if r2.1.isEmpty then none
        else some (r1.1 ++ '.' :: r2.1)
      | _ => none

/-- Leftmost-match scan of the filename regex over the character list; the
Bool argument records whether the previous character was a word character
(for the leading word-boundary test). -/
def scanChars : Bool → List Char → Option (List Char)
  | _, [] => none
  | prevW, c :: rest =>
    match matchHere prevW (c :: rest) with
    | some m => some m
    | none => scanChars (isWordChar c) rest

/-- Model of query.match of the bare-filename regex in semanticSearch:
the first token of shape word-or-hyphen characters, a dot, word characters,
delimited by word boundaries. -/
def filenameMatch (q : String) : Option String :=
  (scanChars false q.data).map (fun cs => cs.asString)

/-- The dedup key built by semanticSearch: JS string concatenation of
item.filename and item.startLine (a number rendered in decimal). -/
def dedupKey (it : DbItem) : String := it.filename ++ toString it.startLine

/-- The dedup loop of semanticSearch over the concatenated lists, with its
seen set of keys: the first occurrence of a key is kept. -/
def dedupeLoop (seen : List String) : List DbItem → List DbItem
  | [] => []
  | it :: rest =>
    if dedupKey it ∈ seen then dedupeLoop seen rest
    else it :: dedupeLoop (dedupKey it :: seen) rest

/-- The hybrid merge of semanticSearch: filename-match results placed first,
then semantic results, deduplicated by dedupKey. -/
def mergeUnique (fileData semanticData : List DbItem) : List DbItem :=
  dedupeLoop [] (fileData ++ semanticData)

/-- Outcomes of the two provider calls made by semanticSearch. An .error value
models a rejected promise; .ok (some xs) models a reply whose
data.Get.CodeSnippet field is xs; .ok none models a reply where that field is
absent (undefined). -/
structure SearchEnv where
  semanticResults : Except String (Option (List DbItem))
  fileResults : Except String (Option (List DbItem))

/-- The output mapping of semanticSearch. -/
def toResult (it : DbItem) : RetrievalResult :=
  { code := it.code, filename := it.filename, line := it.startLine }

/-- semanticSearch: rejects an empty query; otherwise, when the filename
heuristic fires, runs both provider calls, merges filename results first with
dedupKey dedup and truncates to limit + 3; when it does not fire, returns the
plain semantic results. Every provider failure inside the try block is caught
and degraded to an empty .ok list. -/
def semanticSearch (env : SearchEnv) (query : String) (limit : Nat) :
    Except String (List RetrievalResult) :=
  if query = "" then .error "Query required"
  else
    match filenameMatch query with
    | some _ =>
      match env.semanticResults, env.fileResults with
      | .ok semPayload, .ok filePayload =>
        let semanticData := semPayload.getD []
        let fileData := filePayload.getD []
        let unique := mergeUnique fileData semanticData
        .ok ((unique.take (limit + 3)).map toResult)
      | _, _ => .ok []
    | none =>
      match env.semanticResults with
      | .ok payload =>
        match payload with
        | none => .ok []
        | some data => .ok (data.map toResult)
      | .error _ => .ok []

/-- Dedup by the (filename, startLine) PAIR. Modelled from the spec words
(merge "deduplicating by the (filename, startLine) pair"), as the comparison
point for the dedup claim; the source instead concatenates the two values into
one string (dedupKey). -/
def pairDedupLoop (seen : List (String × Nat)) : List DbItem → List DbItem
  | [] => []
  | it :: rest =>
    if (it.filename, it.startLine) ∈ seen then pairDedupLoop seen rest
    else it :: pairDedupLoop ((it.filename, it.startLine) :: seen) rest

/-! ## Ingestion module -/

/-- The fixed extension allowlist of ingestRepo. -/
def supportedExtensions : List String :=
  ["js", "jsx", "ts", "tsx", "mjs", "cjs",
   "py", "pyi", "pyx",
   "rs",
   "go",
   "java", "kt", "kts", "scala",
   "c", "cpp", "cc", "cxx", "h", "hpp", "hxx",
   "cs", "fs",
   "rb", "rake",
   "php",
   "swift",
   "sh", "bash", "zsh",
   "html", "htm", "css", "scss", "sass", "less", "vue", "svelte",
   "json", "yaml", "yml", "toml", "xml", "ini", "env",
   "md", "mdx", "rst", "txt",
   "sql", "prisma", "graphql", "gql",
   "lua", "pl", "pm", "ex", "exs", "erl", "hrl", "zig", "nim", "v", "dart", "r"]

/-- The directory names excluded by the glob ignore patterns of ingestRepo
(each appears there as a pattern with globstars on both sides). -/
def denyDirs : List String :=
  ["node_modules", ".git", "dist", "build", ".next", "target",
   "__pycache__", ".venv", "venv"]

/-- The lockfile basenames excluded by the glob ignore patterns. -/
def lockfileNames : List String :=
  ["package-lock.json", "yarn.lock", "Cargo.lock", "poetry.lock", "Gemfile.lock"]

/-- Final segment of a path (its basename); empty for the empty path. -/
def baseName (p : List String) : String := (p.getLast?).getD ""

/-- Directory segments of a path (all but the final segment). -/
def dirSegs (p : List String) : List String := p.dropLast

/-- Whether a basename matches the glob star-dot-ext with the minimatch
default of not matching a leading dot. -/
def extMatches (name : String) (ext : String) : Bool :=
  strEndsWith name ("." ++ ext) && !(strStartsWith name ".")

/-- Whether a path matches the include pattern of the glob call (globstar over
non-hidden directories, then a basename with an allowlisted extension). -/
def includeMatch (p : List String) : Bool :=
  (dirSegs p).all (fun s => !(strStartsWith s ".")) &&
  supportedExtensions.any (fun e => extMatches (baseName p) e)

/-- Whether a path matches one of the ignore patterns of the glob call: a
denylisted directory segment, a minified-asset suffix, or a lockfile basename.
(The globstar parts of the ignore patterns are modeled as plain segment
search; the model and the real matcher agree on every path the include pattern
accepts, which is all the composed filter ever consults.) -/
def ignoreMatch (p : List String) : Bool :=
  (dirSegs p).any (fun s => denyDirs.contains s) ||
  strEndsWith (baseName p) ".min.js" ||
  strEndsWith (baseName p) ".min.css" ||
  lockfileNames.contains (baseName p)

/-- The file list produced by the glob call of ingestRepo over the candidate
paths found under the repository root. -/
def globFiles (cands : List (List String)) : List (List String) :=
  cands.filter (fun p => includeMatch p && !ignoreMatch p)

/-- Splits a character list at its LAST dot, if any. -/
def splitLastDot : List Char → Option (List Char × List Char)
  | [] => none
  | c :: rest =>
    match splitLastDot rest with
    | some pr => some (c :: pr.1, pr.2)
    | none => if c = '.' then some ([], rest) else none

/-- Model of path.extname(file).substring(1) applied to a basename: the
characters after the last dot, empty when there is no dot or the dot is the
first character. -/
def extnameDrop (name : String) : String :=
  match splitLastDot name.data with
  | some pr => if pr.1.isEmpty then "" else pr.2.asString
  | none => ""

/-- How the external calls made by one ingestRepo invocation would complete:
the three schema calls, the git clone, each file read (an .error value is a
rejected read: permissions, binary content), the text splitter (pure), each
batch flush, the recursive rm, and the Date.now() clock reading. -/
structure IngestEnv where
  schemaGetFails : Bool
  classExists : Bool
  classDeleteFails : Bool
  classCreateFails : Bool
  cloneFails : Bool
  cloneErrMsg : String
  candidatePaths : List (List String)
  readFile : List String → Except String String
  split : String → List String
  batchFails : Nat → Bool
  rmFails : Bool
  now : Nat

/-- The try block of initSchema: get the schema, delete the class when it
exists, create it fresh; any of the three provider calls may reject. -/
def initSchemaBody (env : IngestEnv) : Except String Unit := do
  if env.schemaGetFails then throw "schema get failed"
  if env.classExists then
    if env.classDeleteFails then throw "class delete failed"
  if env.classCreateFails then throw "class create failed"
  pure ()

/-- initSchema: runs its body and CATCHES any error, only logging it
(console.error); it never rethrows. The returned strings are the log lines. -/
def initSchema (env : IngestEnv) : List String :=
  match initSchemaBody env with
  | .ok _ => ["Created Schema: CodeSnippet"]
  | .error e => ["Weaviate Schema Error: " ++ e]

/-- isGitHubUrl: a protocol-prefixed or SSH-style GitHub reference. -/
def isGitHubUrl (input : String) : Bool :=
  strStartsWith input "https://github.com/" || strStartsWith input "git@github.com:"

/-- The temp directory used by cloneRepo: os.tmpdir() joined with rag-repo-
and the Date.now() timestamp. -/
def tmpDirFor (now : Nat) : String := "/tmp/rag-repo-" ++ toString now

/-- cloneRepo: on success, the temp directory together with the exact shell
command run (a shallow clone of depth 1 into that directory); a non-zero exit
becomes the Failed-to-clone error carrying the message of the tool. -/
def cloneRepo (cloneFails : Bool) (cloneErrMsg : String) (now : Nat) (repoUrl : String) :
    Except String (String × String) :=
  if cloneFails then .error ("Failed to clone repository: " ++ cloneErrMsg)
  else .ok (tmpDirFor now, "git clone --depth 1 " ++ repoUrl ++ " " ++ tmpDirFor now)

/-- The acquisition step of ingestRepo: a GitHub reference is cloned (the Bool
shouldCleanup becomes true); every other reference is used directly as a local
path (shouldCleanup false). -/
def acquire (cloneFails : Bool) (cloneErrMsg : String) (now : Nat) (reference : String) :
    Except String (String × Bool) :=
  if isGitHubUrl reference then
    (cloneRepo cloneFails cloneErrMsg now reference).map (fun pr => (pr.1, true))
  else .ok (reference, false)

/-- One object upserted per chunk: the properties the batcher object carries.
endLine is never set by ingestion (none models the absent property; the schema
declares the field but the object omits it). filename is the path relative to
the repository root, modeled in segments. -/
structure ChunkProps where
  code : String
  filename : List String
  language : String
  startLine : Nat
  endLine : Option Nat
deriving DecidableEq

/-- State of the object batcher: objects already flushed to the store, objects
pending in the current batch, and how many flushes happened so far. -/
structure BState where
  written : List ChunkProps
  pending : List ChunkProps
  flushCount : Nat
deriving DecidableEq

/-- The batch bound MAX_BATCH of ingestRepo. -/
def MAX_BATCH : Nat := 50

/-- One batcher.do() call: flushes the pending objects, or rejects. -/
def flushBatch (batchFails : Nat → Bool) (st : BState) : BState × Option String :=
  if batchFails st.flushCount then (st, some "batch write failed")
  else ({ written := st.written ++ st.pending, pending := [], flushCount := st.flushCount + 1 }, none)

/-- The inner chunk loop of ingestRepo: each record goes to the batcher, and
the batch is flushed whenever its size reaches MAX_BATCH. -/
def addChunks (batchFails : Nat → Bool) (st : BState) : List ChunkProps → BState × Option String
  | [] => (st, none)
  | r :: rs =>
    let st1 : BState := { st with pending := st.pending ++ [r] }
    if MAX_BATCH ≤ st1.pending.length then
      match flushBatch batchFails st1 with
      | (st2, some e) => (st2, some e)
      | (st2, none) => addChunks batchFails st2 rs
    else addChunks batchFails st1 rs

/-- The records produced from one file: one per splitter chunk, with
filename = the relative path, language = the extension with the dot stripped,
startLine = the constant 1, and no endLine. -/
def fileRecords (split : String → List String) (p : List String) (content : String) :
    List ChunkProps :=
  (split content).map (fun chunk =>
    { code := chunk, filename := p, language := extnameDrop (baseName p),
      startLine := 1, endLine := none })

/-- The file loop of ingestRepo: read each file (a rejected read aborts the
loop with that error — there is no per-file catch), split it and batch its
records. -/
def processFiles (readFile : List String → Except String String)
    (split : String → List String) (batchFails : Nat → Bool) :
    List (List String) → BState → BState × Option String
  | [], st => (st, none)
  | p :: rest, st =>
    match readFile p with
    | .error e => (st, some e)
    | .ok content =>
      match addChunks batchFails st (fileRecords split p content) with
      | (st1, some e) => (st1, some e)
      | (st1, none) => processFiles readFile split batchFails rest st1

/-- The try block of ingestRepo: glob, file loop, final flush of a non-empty
remainder; on success the result is the number of globbed files. -/
def tryBody (cands : List (List String)) (readFile : List String → Except String String)
    (split : String → List String) (batchFails : Nat → Bool) :
    BState × Except String Nat :=
  let files := globFiles cands
  match processFiles readFile split batchFails files { written := [], pending := [], flushCount := 0 } with
  | (st, some e) => (st, .error e)
  | (st, none) =>
    if 0 < st.pending.length then
      match flushBatch batchFails st with
      | (st1, some e) => (st1, .error e)
      | (st1, none) => (st1, .ok files.length)
    else (st, .ok files.length)

/-- Everything observable about one ingestRepo call: its returned or thrown
result, the records flushed to the store, whether a temp clone directory was
created, whether it still exists at the end, and whether its removal was
attempted. -/
structure IngestOutcome where
  result : Except String Nat
  written : List ChunkProps
  tempDirCreated : Bool
  tempDirExists : Bool
  rmAttempted : Bool
deriving DecidableEq

/-- ingestRepo: API-key guard, then initSchema (whose errors are swallowed,
see initSchema), then acquisition, then the try block, then — in the
finally block, for a cloned repository only — the recursive rm of the temp
directory, whose own failure is only logged and never alters the result. -/
def ingestRepo (env : IngestEnv) (repoInput apiKey : String) : IngestOutcome :=
  if apiKey = "" then
    { result := .error "API Key required for RAG ingestion", written := [],
      tempDirCreated := false, tempDirExists := false, rmAttempted := false }
  else
    let _schemaLogs := initSchema env
    match acquire env.cloneFails env.cloneErrMsg env.now repoInput with
    | .error e =>
      { result := .error e, written := [], tempDirCreated := false,
        tempDirExists := false, rmAttempted := false }
    | .ok (_, shouldCleanup) =>
      let r := tryBody env.candidatePaths env.readFile env.split env.batchFails
      if shouldCleanup then
        if env.rmFails then
          { result := r.2, written := r.1.written, tempDirCreated := true,
            tempDirExists := true, rmAttempted := true }
        else
          { result := r.2, written := r.1.written, tempDirCreated := true,
            tempDirExists := false, rmAttempted := true }
      else
        { result := r.2, written := r.1.written, tempDirCreated := false,
          tempDirExists := false, rmAttempted := false }

/-! ## Answer module (askCodebase) -/

/-- The external calls of askCodebase: the retrieval engine (semanticSearch,
which may throw) and one language-model completion call keyed by the system
prompt and the user query. -/
structure AskEnv where
  searchResult : String → Except String (List RetrievalResult)
  llm : String → String → Except String String

/-- The value askCodebase resolves with. -/
structure AskAnswer where
  answer : String
  context : List RetrievalResult
deriving DecidableEq

/-- Everything observable about one askCodebase call: its result, whether the
retrieval engine was invoked, whether the model endpoint was called, and with
which system prompt. -/
structure AskOutcome where
  result : Except String AskAnswer
  retrievalCalled : Bool
  llmCalled : Bool
  promptUsed : Option String
deriving DecidableEq

/-- Per-item context formatting of askCodebase: a File label with filename and
line, then a fenced code block. (The language tag of the template is always
empty: RetrievalResult carries no language field, and the source falls back to
the empty string.) -/
def formatItem (it : RetrievalResult) : String :=
  "File: " ++ it.filename ++ " (Line " ++ toString it.line ++ ")\n```\n" ++ it.code ++ "\n```"

/-- The context string: formatted items joined with blank lines. -/
def formatContext (items : List RetrievalResult) : String :=
  String.intercalate "\n\n" (items.map formatItem)

/-- The fixed part of the system prompt, up to the context slot. -/
def promptPreamble : String :=
  "You are a senior codebase expert. Answer the user\x27s question primarily using the provided Code Context.\nIf the answer is not in the context, say so, but check if the context contains a file list or structure that might help.\nAlways cite the filename when referencing code.\nIf asked about a specific file (e.g., \"main.rs\"), and it\x27s in the context, explain it detailedly.\n\n--- Code Context ---\n"

/-- The system prompt: the preamble, then the context string or — when it is
empty — the explicit placeholder. -/
def systemPromptFor (contextString : String) : String :=
  promptPreamble ++
    (if contextString = "" then "No relevant code found." else contextString) ++ "\n"

/-- askCodebase: API-key guard (before any call), retrieval (outside the try
block, so a retrieval throw propagates), prompt assembly, one completion call
whose failure is logged and rethrown; on success the answer is paired with the
exact retrieved context list. -/
def askCodebase (env : AskEnv) (query apiKey : String) : AskOutcome :=
  if apiKey = "" then
    { result := .error "API Key required", retrievalCalled := false,
      llmCalled := false, promptUsed := none }
  else
    match env.searchResult query with
    | .error e =>
      { result := .error e, retrievalCalled := true, llmCalled := false,
        promptUsed := none }
    | .ok contextItems =>
      let prompt := systemPromptFor (formatContext contextItems)
      match env.llm prompt query with
      | .error e =>
        { result := .error e, retrievalCalled := true, llmCalled := true,
          promptUsed := some prompt }
      | .ok ans =>
        { result := .ok { answer := ans, context := contextItems },
          retrievalCalled := true, llmCalled := true, promptUsed := some prompt }

/-! ## Concrete environments used to evaluate the model at specific inputs -/

/-- A fully healthy ingestion environment with one candidate file. -/
def baseEnv : IngestEnv :=
  { schemaGetFails := false, classExists := false, classDeleteFails := false,
    classCreateFails := false, cloneFails := false, cloneErrMsg := "",
    candidatePaths := [["src", "app.ts"]], readFile := fun _ => .ok "content",
    split := fun c => [c], batchFails := fun _ => false, rmFails := false, now := 42 }

/-- An environment whose schema-get call rejects, everything else healthy. -/
def schemaFailEnv : IngestEnv :=
  { baseEnv with
    schemaGetFails := true,
    candidatePaths := [["a.js"]],
    readFile := fun _ => .ok "x" }

/-- Two candidate files; reading the FIRST one rejects. -/
def readFailFirstEnv : IngestEnv :=
  { baseEnv with
    candidatePaths := [["a.js"], ["b.js"]],
    readFile := fun p => if p = ["a.js"] then .error "EACCES: permission denied" else .ok "y" }

/-- Two candidate files; reading the SECOND one rejects. -/
def readFailSecondEnv : IngestEnv :=
  { baseEnv with
    candidatePaths := [["a.js"], ["b.js"]],
    readFile := fun p => if p = ["b.js"] then .error "EISDIR: illegal operation" else .ok "y" }

/-- A filename-match result whose concatenated dedup key collides with the
semantic result of collideSemItem: "a.js" ++ "12" = "a.js1" ++ "2". -/
def collideFileItem : DbItem :=
  { code := "fcode", filename := "a.js", language := "js", startLine := 12, endLine := none }

/-- A semantic result with a distinct (filename, startLine) pair but the same
concatenated dedup key as collideFileItem. -/
def collideSemItem : DbItem :=
  { code := "scode", filename := "a.js1", language := "js", startLine := 2, endLine := none }

/-- Search environment realizing the key collision. -/
def collideEnv : SearchEnv :=
  { semanticResults := .ok (some [collideSemItem]),
    fileResults := .ok (some [collideFileItem]) }

/-- A plain filename-match result for the merge witness. -/
def mergeFileItem : DbItem :=
  { code := "f", filename := "x.js", language := "js", startLine := 1, endLine := none }

/-- A plain semantic result for the merge witness. -/
def mergeSemItem : DbItem :=
  { code := "s", filename := "y.js", language := "js", startLine := 1, endLine := none }

/-- Search environment for the merge witness. -/
def mergeEnv : SearchEnv :=
  { semanticResults := .ok (some [mergeSemItem]),
    fileResults := .ok (some [mergeFileItem]) }

/-- An answer environment over an empty index: retrieval finds nothing and the
model call succeeds. -/
def emptyIndexAskEnv : AskEnv :=
  { searchResult := fun _ => .ok [],
    llm := fun _ _ => .ok "There is no code context available." }

/-! ## Lemmas about the dedup loop of semanticSearch -/

theorem dedupeLoop_subset (l : List DbItem) :
    ∀ seen it, it ∈ dedupeLoop seen l → it ∈ l := by
  induction l with
  | nil => intro seen it h; simp [dedupeLoop] at h
  | cons x rest ih =>
    intro seen it h
    simp only [dedupeLoop] at h
    by_cases hk : dedupKey x ∈ seen
    · rw [if_pos hk] at h
      exact List.mem_cons_of_mem _ (ih seen it h)
    · rw [if_neg hk] at h
      rcases List.mem_cons.mp h with h | h
      · simp [h]
      · exact List.mem_cons_of_mem _ (ih _ it h)

theorem dedupeLoop_key_not_seen (l : List DbItem) :
    ∀ seen it, it ∈ dedupeLoop seen l → dedupKey it ∉ seen := by
  induction l with
  | nil => intro seen it h; simp [dedupeLoop] at h
  | cons x rest ih =>
    intro seen it h
    simp only [dedupeLoop] at h
    by_cases hk : dedupKey x ∈ seen
    · rw [if_pos hk] at h
      exact ih seen it h
    · rw [if_neg hk] at h
      rcases List.mem_cons.mp h with h | h
      · rw [h]; exact hk
      · have := ih _ it h
        intro hin
        exact this (List.mem_cons_of_mem _ hin)

theorem dedupeLoop_keys_nodup (l : List DbItem) :
    ∀ seen, ((dedupeLoop seen l).map dedupKey).Nodup := by
  induction l with
  | nil => intro seen; simp [dedupeLoop]
  | cons x rest ih =>
    intro seen
    simp only [dedupeLoop]
    by_cases hk : dedupKey x ∈ seen
    · rw [if_pos hk]; exact ih seen
    · rw [if_neg hk]
      simp only [List.map_cons, List.nodup_cons]
      constructor
      · intro hmem
        rcases List.mem_map.mp hmem with ⟨it, hit, hkey⟩
        have := dedupeLoop_key_not_seen rest _ it hit
        rw [hkey] at this
        exact this (List.mem_cons_self _ _)
      · exact ih _

theorem dedupeLoop_congr (l : List DbItem) :
    ∀ s1 s2, (∀ k, k ∈ s1 ↔ k ∈ s2) → dedupeLoop s1 l = dedupeLoop s2 l := by
  induction l with
  | nil => intro s1 s2 _; rfl
  | cons x rest ih =>
    intro s1 s2 hs
    simp only [dedupeLoop]
    by_cases hk : dedupKey x ∈ s1
    · rw [if_pos hk, if_pos ((hs _).mp hk)]
      exact ih s1 s2 hs
    · rw [if_neg hk, if_neg (fun hx => hk ((hs _).mpr hx))]
      have : ∀ k, k ∈ dedupKey x :: s1 ↔ k ∈ dedupKey x :: s2 := by
        intro k
        simp only [List.mem_cons]
        exact or_congr Iff.rfl (hs k)
      rw [ih _ _ this]

theorem dedupeLoop_append (xs ys : List DbItem) :
    ∀ seen, dedupeLoop seen (xs ++ ys) =
      dedupeLoop seen xs ++ dedupeLoop ((dedupeLoop seen xs).map dedupKey ++ seen) ys := by
  induction xs with
  | nil => intro seen; simp [dedupeLoop]
  | cons x rest ih =>
    intro seen
    simp only [List.cons_append, dedupeLoop, List.append_eq]
    by_cases hk : dedupKey x ∈ seen
    · rw [if_pos hk, if_pos hk, ih seen]
    · rw [if_neg hk, if_neg hk, ih (dedupKey x :: seen)]
      simp only [List.cons_append, List.map_cons]
      have hsets : ∀ k, k ∈ (dedupeLoop (dedupKey x :: seen) rest).map dedupKey ++ dedupKey x :: seen
          ↔ k ∈ dedupKey x :: ((dedupeLoop (dedupKey x :: seen) rest).map dedupKey ++ seen) := by
        intro k
        simp only [List.mem_append, List.mem_cons]
        tauto
      rw [dedupeLoop_congr ys _ _ hsets]

theorem dedupeLoop_keys_complete (l : List DbItem) :
    ∀ seen x, x ∈ l →
      dedupKey x ∈ (dedupeLoop seen l).map dedupKey ∨ dedupKey x ∈ seen := by
  induction l with
  | nil => intro seen x h; simp at h
  | cons y rest ih =>
    intro seen x hx
    simp only [dedupeLoop]
    by_cases hk : dedupKey y ∈ seen
    · rw [if_pos hk]
      rcases List.mem_cons.mp hx with h | h
      · right; rw [h]; exact hk
      · exact ih seen x h
    · rw [if_neg hk]
      simp only [List.map_cons, List.mem_cons]
      rcases List.mem_cons.mp hx with h | h
      · left; left; rw [h]
      · rcases ih (dedupKey y :: seen) x h with hmem | hmem
        · left; right; exact hmem
        · rcases List.mem_cons.mp hmem with h2 | h2
          · left; left; exact h2
          · right; exact h2

/-- Among items that all carry startLine 1, distinct dedup keys force distinct
filenames, so a key-nodup list holds each filename at most once. -/
theorem filter_filename_le_one (f : String) :
    ∀ l : List DbItem, ((l.map dedupKey).Nodup) → (∀ it ∈ l, it.startLine = 1) →
      (l.filter (fun it => it.filename == f)).length ≤ 1 := by
  intro l
  induction l with
  | nil => intro _ _; simp
  | cons x rest ih =>
    intro hnd hsl
    simp only [List.map_cons, List.nodup_cons] at hnd
    simp only [List.filter_cons]
    by_cases hx : x.filename == f
    · rw [if_pos hx]
      have hrest : rest.filter (fun it => it.filename == f) = [] := by
        rw [List.filter_eq_nil_iff]
        intro y hy hyf
        apply hnd.1
        refine List.mem_map.mpr ⟨y, hy, ?_⟩
        have hxf : x.filename = f := by simpa using hx
        have hyf2 : y.filename = f := by simpa using hyf
        have hx1 : x.startLine = 1 := hsl x (List.mem_cons_self _ _)
        have hy1 : y.startLine = 1 := hsl y (List.mem_cons_of_mem _ hy)
        simp [dedupKey, hxf, hyf2, hx1, hy1]
      simp [hrest]
    · rw [if_neg hx]
      exact ih hnd.2 (fun it hit => hsl it (List.mem_cons_of_mem _ hit))

/-! ## Claim theorems: retrieval merge (dedup) -/

/-- C3 counterexample. The claim says the hybrid merge is deduplicated by the
(filename, startLine) pair, every pair appearing exactly once. The source keys
the dedup on the string concatenation filename ++ startLine, so the two
DISTINCT pairs ("a.js", 12) and ("a.js1", 2) collide ("a.js12") and the second
is dropped: the merged output of the code has one entry where dedup by pair
keeps both, and the pair ("a.js1", 2), present in the semantic set, appears
zero times in the output. -/
theorem c3_pair_dedup_counterexample :
    semanticSearch collideEnv "main.rs" 10 =
      .ok [{ code := "fcode", filename := "a.js", line := 12 }] ∧
    pairDedupLoop [] ([collideFileItem] ++ [collideSemItem]) =
      [collideFileItem, collideSemItem] ∧
    (collideFileItem.filename, collideFileItem.startLine) ≠
      (collideSemItem.filename, collideSemItem.startLine) ∧
    dedupKey collideFileItem = dedupKey collideSemItem := by
  refine ⟨by decide, by decide, by decide, by decide⟩

/-- C3 amended. When the filename heuristic fires and both provider calls
succeed, the output of search is the merge with all surviving filename-match
results first, deduplicated by the CONCATENATED string key
filename ++ startLine with the first occurrence winning (which coincides with
dedup by the (filename, startLine) pair exactly when no two distinct input
pairs concatenate to the same string; colliding distinct pairs lose all but
the first occurrence), truncated to at most limit + 3 entries (3 being the
size of the filename-match request). Consequences proved: the returned list is
that merge; keys in the merge are pairwise distinct (so are the surviving
(filename, startLine) pairs — each appears at most once); every survivor comes
from one of the two input sets; a survivor whose key occurs in the
filename-match set is itself from the filename-match set; the filename-match
survivors form the prefix; and the result length is at most limit + 3. -/
theorem c3_hybrid_merge_amended (env : SearchEnv) (q f : String) (limit : Nat)
    (semP filP : Option (List DbItem))
    (hq : filenameMatch q = some f) (hq0 : q ≠ "")
    (hsem : env.semanticResults = .ok semP) (hfil : env.fileResults = .ok filP) :
    semanticSearch env q limit =
      .ok (((mergeUnique (filP.getD []) (semP.getD [])).take (limit + 3)).map toResult) ∧
    ((mergeUnique (filP.getD []) (semP.getD [])).map dedupKey).Nodup ∧
    ((mergeUnique (filP.getD []) (semP.getD [])).map
      (fun it => (it.filename, it.startLine))).Nodup ∧
    (∀ it ∈ mergeUnique (filP.getD []) (semP.getD []),
      it ∈ filP.getD [] ∨ it ∈ semP.getD []) ∧
    (∀ it ∈ mergeUnique (filP.getD []) (semP.getD []),
      (∃ x ∈ filP.getD [], dedupKey x = dedupKey it) → it ∈ filP.getD []) ∧
    (∃ rest, mergeUnique (filP.getD []) (semP.getD []) =
        dedupeLoop [] (filP.getD []) ++ rest ∧ ∀ it ∈ rest, it ∈ semP.getD []) ∧
    ((mergeUnique (filP.getD []) (semP.getD [])).take (limit + 3)).length ≤ limit + 3 := by
  refine ⟨?_, ?_, ?_, ?_, ?_, ?_, ?_⟩
  · simp only [semanticSearch, if_neg hq0, hq, hsem, hfil]
  · exact dedupeLoop_keys_nodup _ []
  · have hkeys := dedupeLoop_keys_nodup (filP.getD [] ++ semP.getD []) []
    have hinj := List.inj_on_of_nodup_map hkeys
    refine List.Nodup.map_on ?_ hkeys.of_map
    intro x hx y hy hxy
    have h1 : x.filename = y.filename := congrArg Prod.fst hxy
    have h2 : x.startLine = y.startLine := congrArg Prod.snd hxy
    exact hinj hx hy (by rw [dedupKey, dedupKey, h1, h2])
  · intro it hit
    have := dedupeLoop_subset _ [] it hit
    exact List.mem_append.mp this
  · intro it hit
    rintro ⟨x, hx, hkey⟩
    rw [mergeUnique, dedupeLoop_append] at hit
    rcases List.mem_append.mp hit with h | h
    · exact dedupeLoop_subset _ [] it h
    · exfalso
      have hnot := dedupeLoop_key_not_seen _ _ it h
      rcases dedupeLoop_keys_complete (filP.getD []) [] x hx with hm | hm
      · apply hnot
        rw [← hkey]
        simpa using hm
      · simp at hm
  · refine ⟨dedupeLoop ((dedupeLoop [] (filP.getD [])).map dedupKey ++ []) (semP.getD []), ?_, ?_⟩
    · rw [mergeUnique, dedupeLoop_append]
    · intro it hit
      exact dedupeLoop_subset _ _ it hit
  · rw [List.length_take]
    exact min_le_left _ _

/-! ## Lemmas about the ingestion batching machinery -/

theorem fileRecords_fields (sp : String → List String) (p : List String) (c : String) :
    ∀ r ∈ fileRecords sp p c, r.filename = p ∧ r.startLine = 1 ∧ r.endLine = none := by
  intro r hr
  rcases List.mem_map.mp hr with ⟨ch, _, hrec⟩
  rw [← hrec]
  exact ⟨rfl, rfl, rfl⟩

theorem flushBatch_inv (P : ChunkProps → Prop) (bf : Nat → Bool) (st st1 : BState)
    (eo : Option String) (hfl : flushBatch bf st = (st1, eo))
    (hst : ∀ r ∈ st.written ++ st.pending, P r) :
    ∀ r ∈ st1.written ++ st1.pending, P r := by
  unfold flushBatch at hfl
  by_cases hb : bf st.flushCount
  · rw [if_pos hb] at hfl
    cases hfl
    exact hst
  · rw [if_neg hb] at hfl
    cases hfl
    intro r hr
    apply hst
    simpa using hr

theorem addChunks_inv (P : ChunkProps → Prop) (bf : Nat → Bool) :
    ∀ (rs : List ChunkProps) (st st1 : BState) (eo : Option String),
      addChunks bf st rs = (st1, eo) →
      (∀ r ∈ st.written ++ st.pending, P r) → (∀ r ∈ rs, P r) →
      ∀ r ∈ st1.written ++ st1.pending, P r := by
  intro rs
  induction rs with
  | nil =>
    intro st st1 eo h hst _
    simp only [addChunks] at h
    cases h
    exact hst
  | cons r rs ih =>
    intro st st1 eo h hst hrs
    simp only [addChunks] at h
    have hstep : ∀ x ∈ st.written ++ (st.pending ++ [r]), P x := by
      intro x hx
      rcases List.mem_append.mp hx with h1 | h1
      · exact hst x (List.mem_append.mpr (Or.inl h1))
      · rcases List.mem_append.mp h1 with h2 | h2
        · exact hst x (List.mem_append.mpr (Or.inr h2))
        · rw [List.mem_singleton.mp h2]
          exact hrs r (List.mem_cons_self _ _)
    have hrs2 : ∀ x ∈ rs, P x := fun x hx => hrs x (List.mem_cons_of_mem _ hx)
    by_cases hb : MAX_BATCH ≤ (st.pending ++ [r]).length
    · rw [if_pos hb] at h
      rcases hfl : flushBatch bf { st with pending := st.pending ++ [r] } with ⟨st2, e2⟩
      rw [hfl] at h
      cases e2 with
      | some e =>
        cases h
        exact flushBatch_inv P bf _ _ _ hfl hstep
      | none =>
        exact ih st2 st1 eo h (flushBatch_inv P bf _ _ _ hfl hstep) hrs2
    · rw [if_neg hb] at h
      exact ih _ st1 eo h hstep hrs2

theorem processFiles_inv (P : ChunkProps → Prop)
    (rf : List String → Except String String) (sp : String → List String)
    (bf : Nat → Bool) :
    ∀ (files : List (List String)) (st st1 : BState) (eo : Option String),
      processFiles rf sp bf files st = (st1, eo) →
      (∀ r ∈ st.written ++ st.pending, P r) →
      (∀ p ∈ files, ∀ c, ∀ r ∈ fileRecords sp p c, P r) →
      ∀ r ∈ st1.written ++ st1.pending, P r := by
  intro files
  induction files with
  | nil =>
    intro st st1 eo h hst _
    simp only [processFiles] at h
    cases h
    exact hst
  | cons p rest ih =>
    intro st st1 eo h hst hfiles
    simp only [processFiles] at h
    split at h
    next e hrd =>
      cases h
      exact hst
    next c hrd =>
      split at h
      next st2 e hac =>
        cases h
        exact addChunks_inv P bf _ _ _ _ hac hst (hfiles p (List.mem_cons_self _ _) c)
      next st2 hac =>
        exact ih st2 st1 eo h
          (addChunks_inv P bf _ _ _ _ hac hst (hfiles p (List.mem_cons_self _ _) c))
          (fun q hq => hfiles q (List.mem_cons_of_mem _ hq))

/-- The records flushed by the try block all satisfy any predicate holding of
every record any globbed file can produce. -/
theorem tryBody_written_inv (P : ChunkProps → Prop) (cands : List (List String))
    (rf : List String → Except String String) (sp : String → List String)
    (bf : Nat → Bool)
    (hfiles : ∀ p ∈ globFiles cands, ∀ c, ∀ r ∈ fileRecords sp p c, P r) :
    ∀ r ∈ (tryBody cands rf sp bf).1.written, P r := by
  simp only [tryBody]
  split
  next st e hpf =>
    have hstep := processFiles_inv P rf sp bf _ _ _ _ hpf (by simp) hfiles
    intro r hr
    exact hstep r (List.mem_append.mpr (Or.inl hr))
  next st hpf =>
    have hstep := processFiles_inv P rf sp bf _ _ _ _ hpf (by simp) hfiles
    split
    next hp =>
      split
      next st2 e hfl =>
        have hstep2 := flushBatch_inv P bf st st2 _ hfl hstep
        intro r hr
        exact hstep2 r (List.mem_append.mpr (Or.inl hr))
      next st2 hfl =>
        have hstep2 := flushBatch_inv P bf st st2 _ hfl hstep
        intro r hr
        exact hstep2 r (List.mem_append.mpr (Or.inl hr))
    next hp =>
      intro r hr
      exact hstep r (List.mem_append.mpr (Or.inl hr))

/-- Written records of ingestRepo, expressed through acquisition and the try
block (non-empty key). -/
theorem ingestRepo_written_eq (env : IngestEnv) (rr k : String) (hk : k ≠ "") :
    (ingestRepo env rr k).written =
      match acquire env.cloneFails env.cloneErrMsg env.now rr with
      | .error _ => []
      | .ok _ => (tryBody env.candidatePaths env.readFile env.split env.batchFails).1.written := by
  simp only [ingestRepo]
  rw [if_neg hk]
  rcases hacq : acquire env.cloneFails env.cloneErrMsg env.now rr with e | pr
  · rfl
  · obtain ⟨path, sc⟩ := pr
    cases sc with
    | true =>
      cases hrm : env.rmFails with
      | true => simp [hrm]
      | false => simp [hrm]
    | false => rfl

/-- Result of ingestRepo, expressed through acquisition and the try block
(non-empty key): an acquisition error is returned as is; otherwise the result
of the try block, unchanged by the cleanup branch. -/
theorem ingestRepo_result_eq (env : IngestEnv) (rr k : String) (hk : k ≠ "") :
    (ingestRepo env rr k).result =
      match acquire env.cloneFails env.cloneErrMsg env.now rr with
      | .error e => .error e
      | .ok _ => (tryBody env.candidatePaths env.readFile env.split env.batchFails).2 := by
  simp only [ingestRepo]
  rw [if_neg hk]
  rcases hacq : acquire env.cloneFails env.cloneErrMsg env.now rr with e | pr
  · rfl
  · obtain ⟨path, sc⟩ := pr
    cases sc with
    | true =>
      cases hrm : env.rmFails with
      | true => simp [hrm]
      | false => simp [hrm]
    | false => rfl

/-- Every record ever flushed by one ingestRepo call satisfies any predicate
holding of every record any globbed file can produce. -/
theorem ingest_written_inv (P : ChunkProps → Prop) (env : IngestEnv) (rr k : String)
    (hfiles : ∀ p ∈ globFiles env.candidatePaths, ∀ c, ∀ r ∈ fileRecords env.split p c, P r) :
    ∀ r ∈ (ingestRepo env rr k).written, P r := by
  by_cases hk : k = ""
  · intro r hr
    rw [hk] at hr
    simp [ingestRepo] at hr
  · rw [ingestRepo_written_eq env rr k hk]
    rcases hacq : acquire env.cloneFails env.cloneErrMsg env.now rr with e | pr
    · intro r hr
      simp at hr
    · exact tryBody_written_inv P env.candidatePaths env.readFile env.split env.batchFails hfiles

/-! ## Lemmas about the glob filter -/

theorem strEndsWith_nil_of_ne (pat : String) (h : pat.data ≠ []) :
    strEndsWith "" pat = false := by
  simp only [strEndsWith]
  by_contra h2
  rw [Bool.not_eq_false] at h2
  have hsuf := List.isSuffixOf_iff_suffix.mp h2
  exact h (List.suffix_nil.mp hsuf)

theorem extMatches_nil (e : String) : extMatches "" e = false := by
  simp only [extMatches]
  have hne : ("." ++ e).data ≠ [] := by
    rw [String.data_append]
    simp
  rw [strEndsWith_nil_of_ne _ hne]
  rfl

theorem extMatches_deny_false :
    ∀ d ∈ denyDirs, ∀ e ∈ supportedExtensions, extMatches d e = false := by decide

theorem globFiles_path_shape (cands : List (List String)) (p : List String)
    (h : p ∈ globFiles cands) :
    (∀ d ∈ denyDirs, d ∉ p) ∧
    strEndsWith (baseName p) ".min.js" = false ∧
    strEndsWith (baseName p) ".min.css" = false ∧
    baseName p ∉ lockfileNames := by
  obtain ⟨hmem, hcond⟩ := List.mem_filter.mp h
  obtain ⟨hinc, hignb⟩ := Bool.and_eq_true_iff.mp hcond
  have hign : ignoreMatch p = false := by simpa using hignb
  simp only [ignoreMatch, Bool.or_eq_false_iff] at hign
  obtain ⟨⟨⟨h1, h2⟩, h3⟩, h4⟩ := hign
  have hinc2 := hinc
  simp only [includeMatch, Bool.and_eq_true_iff] at hinc2
  obtain ⟨hdirs, hext⟩ := hinc2
  obtain ⟨e, he, hee⟩ := List.any_eq_true.mp hext
  have hpne : p ≠ [] := by
    intro hnil
    rw [hnil] at hee
    simp [baseName, extMatches_nil] at hee
  have hbase : baseName p = List.getLast p hpne := by
    simp [baseName, List.getLast?_eq_getLast_of_ne_nil hpne]
  refine ⟨?_, h2, h3, by simpa using h4⟩
  intro d hd hdp
  rw [← List.dropLast_append_getLast hpne] at hdp
  rcases List.mem_append.mp hdp with hcase | hcase
  · rw [List.any_eq_false] at h1
    have hnd := h1 d hcase
    simp at hnd
    exact hnd hd
  · have hdb : d = baseName p := by
      rw [hbase]
      simpa using hcase
    subst hdb
    have hfalse := extMatches_deny_false _ hd e he
    rw [hee] at hfalse
    simp at hfalse

/-! ## Claim theorems: exclusion and startLine invariants of ingestion -/

/-- C8. Every record written by any ingestRepo run has a filename (relative
path) with no denylisted segment, no minified-asset suffix, and no lockfile
basename. -/
theorem c8_exclusion_invariant (env : IngestEnv) (rr k : String) :
    ∀ rec ∈ (ingestRepo env rr k).written,
      (∀ d ∈ denyDirs, d ∉ rec.filename) ∧
      strEndsWith (baseName rec.filename) ".min.js" = false ∧
      strEndsWith (baseName rec.filename) ".min.css" = false ∧
      baseName rec.filename ∉ lockfileNames := by
  refine ingest_written_inv _ env rr k ?_
  intro p hp c r hr
  have hshape := globFiles_path_shape env.candidatePaths p hp
  rw [(fileRecords_fields env.split p c r hr).1]
  exact hshape

/-- C9. Every record written by ingestion carries startLine = 1 and no
endLine, so the concatenated dedup key of retrieval degenerates to the
filename: over result sets whose items all have startLine 1 (as all records of
this ingestion do), the hybrid merge keeps at most one item per filename. -/
theorem c9_startline_degenerate :
    (∀ (env : IngestEnv) (rr k : String), ∀ rec ∈ (ingestRepo env rr k).written,
        rec.startLine = 1 ∧ rec.endLine = none) ∧
    (∀ fileData semData : List DbItem,
      (∀ it, (it ∈ fileData ∨ it ∈ semData) → it.startLine = 1) →
      ∀ f, ((mergeUnique fileData semData).filter
        (fun it => it.filename == f)).length ≤ 1) := by
  constructor
  · intro env rr k
    refine ingest_written_inv _ env rr k ?_
    intro p hp c r hr
    exact (fileRecords_fields env.split p c r hr).2
  · intro fileData semData hsl f
    apply filter_filename_le_one
    · exact dedupeLoop_keys_nodup _ []
    · intro it hit
      have hsub := dedupeLoop_subset _ [] it hit
      exact hsl it (List.mem_append.mp hsub)

/-! ## Error propagation through the file loop -/

theorem addChunks_ok_of_no_batchfail (bf : Nat → Bool) (hbf : ∀ n, bf n = false) :
    ∀ (rs : List ChunkProps) (st : BState), ∃ st1, addChunks bf st rs = (st1, none) := by
  intro rs
  induction rs with
  | nil => intro st; exact ⟨st, rfl⟩
  | cons r rs ih =>
    intro st
    simp only [addChunks]
    by_cases hb : MAX_BATCH ≤ (st.pending ++ [r]).length
    · rw [if_pos hb]
      have hfl : flushBatch bf { st with pending := st.pending ++ [r] } =
          ({ written := st.written ++ (st.pending ++ [r]), pending := [],
             flushCount := st.flushCount + 1 }, none) := by
        simp [flushBatch, hbf]
      rw [hfl]
      exact ih _
    · rw [if_neg hb]
      exact ih _

/-- With healthy batch writes, the file loop runs through the prefix A, stops
at the first file whose read rejects, propagates exactly that error, and every
record accumulated so far comes from the initial state or from a file of A. -/
theorem processFiles_stops_at_error (rf : List String → Except String String)
    (sp : String → List String) (bf : Nat → Bool) (hbf : ∀ n, bf n = false)
    (e : String) :
    ∀ (A : List (List String)) (p : List String) (B : List (List String)) (st : BState),
      (∀ q ∈ A, ∃ c, rf q = .ok c) → rf p = .error e →
      ∃ st1, processFiles rf sp bf (A ++ p :: B) st = (st1, some e) ∧
        ∀ r ∈ st1.written ++ st1.pending,
          r ∈ st.written ++ st.pending ∨ ∃ q ∈ A, ∃ c, r ∈ fileRecords sp q c := by
  intro A
  induction A with
  | nil =>
    intro p B st _ hp
    refine ⟨st, ?_, fun r hr => Or.inl hr⟩
    simp only [List.nil_append, processFiles, hp]
  | cons q A ih =>
    intro p B st hA hp
    obtain ⟨c, hc⟩ := hA q (List.mem_cons_self _ _)
    simp only [List.cons_append, processFiles, hc]
    obtain ⟨st2, hst2⟩ := addChunks_ok_of_no_batchfail bf hbf (fileRecords sp q c) st
    rw [hst2]
    obtain ⟨st1, hrun, hsrc⟩ := ih p B st2 (fun x hx => hA x (List.mem_cons_of_mem _ hx)) hp
    refine ⟨st1, hrun, ?_⟩
    intro r hr
    rcases hsrc r hr with h0 | h0
    · have hstep := addChunks_inv
        (fun x => x ∈ st.written ++ st.pending ∨ ∃ cc, x ∈ fileRecords sp q cc)
        bf _ _ _ _ hst2 (fun x hx => Or.inl hx) (fun x hx => Or.inr ⟨c, hx⟩) r h0
      rcases hstep with h1 | ⟨cc, h1⟩
      · exact Or.inl h1
      · exact Or.inr ⟨q, List.mem_cons_self _ _, cc, h1⟩
    · rcases h0 with ⟨x, hx, cc, hcc⟩
      exact Or.inr ⟨x, List.mem_cons_of_mem _ hx, cc, hcc⟩

/-! ## Claim theorems: schema-failure and read-failure behavior of ingestion -/

/-- C1 counterexample. The claim says a schema provisioning failure surfaces
as a fatal error and ingestion aborts before any chunking or upsert, writing
no records. In the environment schemaFailEnv the schema-get call rejects, yet
ingestRepo returns success (1 file processed) and the chunk of the one file IS
written to the store. -/
theorem c1_schema_failure_counterexample :
    initSchemaBody schemaFailEnv = .error "schema get failed" ∧
    (ingestRepo schemaFailEnv "/repo" "key").result = .ok 1 ∧
    (ingestRepo schemaFailEnv "/repo" "key").written ≠ [] := by
  refine ⟨by decide, by decide, by decide⟩

/-- C1 amended. Schema provisioning errors are caught INSIDE initSchema and
only logged (console.error); they never propagate, and the ingestion call
behaves identically — same result, same written records, same cleanup — no
matter how the three schema calls fail: its outcome does not depend on the
four schema fields of the environment at all. -/
theorem c1_schema_errors_swallowed_amended (env : IngestEnv) (e : String)
    (herr : initSchemaBody env = .error e) :
    initSchema env = ["Weaviate Schema Error: " ++ e] ∧
    ∀ (rr k : String) (b1 b2 b3 b4 : Bool),
      ingestRepo
        { env with
          schemaGetFails := b1
          classExists := b2
          classDeleteFails := b3
          classCreateFails := b4 } rr k
        = ingestRepo env rr k := by
  constructor
  · simp [initSchema, herr]
  · intro rr k b1 b2 b3 b4
    cases env
    rfl

/-- C2 counterexample. The claim says an unreadable file is skipped with a
warning and the walk continues. In readFailFirstEnv the first of two globbed
files rejects its read: the whole ingestRepo call fails with that read error,
the second file is never ingested, and nothing is written. -/
theorem c2_skip_unreadable_counterexample :
    (ingestRepo readFailFirstEnv "/repo" "key").result = .error "EACCES: permission denied" ∧
    (ingestRepo readFailFirstEnv "/repo" "key").written = [] := by
  refine ⟨by decide, by decide⟩

/-- C2 amended. A failed file read is NOT caught per file: with healthy batch
writes, the first unreadable file in walk order aborts the whole ingestion
call with exactly that read error (after the cleanup block), files after it
are never processed, and every record flushed before the abort comes from an
earlier file. -/
theorem c2_read_error_aborts_amended (env : IngestEnv) (rr k : String)
    (A : List (List String)) (p : List String) (B : List (List String)) (e : String)
    (hk : k ≠ "")
    (hacq : isGitHubUrl rr = false ∨ env.cloneFails = false)
    (hglob : globFiles env.candidatePaths = A ++ p :: B)
    (hA : ∀ q ∈ A, ∃ c, env.readFile q = .ok c)
    (hp : env.readFile p = .error e)
    (hbf : ∀ n, env.batchFails n = false) :
    (ingestRepo env rr k).result = .error e ∧
    ∀ rec ∈ (ingestRepo env rr k).written, ∃ q ∈ A, ∃ c, rec ∈ fileRecords env.split q c := by
  obtain ⟨st1, hrun, hsrc⟩ := processFiles_stops_at_error env.readFile env.split env.batchFails
    hbf e A p B { written := [], pending := [], flushCount := 0 } hA hp
  have hacquire : ∃ pr, acquire env.cloneFails env.cloneErrMsg env.now rr = .ok pr := by
    rcases hacq with hgit | hcf
    · exact ⟨(rr, false), by simp [acquire, hgit]⟩
    · by_cases hgit : isGitHubUrl rr
      · exact ⟨(tmpDirFor env.now, true), by simp [acquire, cloneRepo, hgit, hcf, Except.map]⟩
      · exact ⟨(rr, false), by simp [acquire, hgit]⟩
  obtain ⟨pr, hpr⟩ := hacquire
  have htry : tryBody env.candidatePaths env.readFile env.split env.batchFails =
      (st1, .error e) := by
    simp only [tryBody, hglob, hrun]
  constructor
  · rw [ingestRepo_result_eq env rr k hk, hpr, htry]
  · rw [ingestRepo_written_eq env rr k hk, hpr, htry]
    intro rec hrec
    rcases hsrc rec (List.mem_append.mpr (Or.inl hrec)) with h0 | h0
    · simp at h0
    · exact h0

/-- C4. After an ingest of a remote URL whose clone succeeded, the finally
block always attempts removal of the temp clone directory: when the removal
call succeeds the directory is gone, and whether it fails or not never changes
the returned or thrown result of the call. -/
theorem c4_cleanup_guarantee (env : IngestEnv) (rr k : String)
    (hgit : isGitHubUrl rr = true) (hk : k ≠ "") (hcf : env.cloneFails = false) :
    (ingestRepo env rr k).tempDirCreated = true ∧
    (ingestRepo env rr k).rmAttempted = true ∧
    (env.rmFails = false → (ingestRepo env rr k).tempDirExists = false) ∧
    ∀ b : Bool, (ingestRepo { env with rmFails := b } rr k).result
      = (ingestRepo env rr k).result := by
  have hacq : acquire env.cloneFails env.cloneErrMsg env.now rr
      = .ok (tmpDirFor env.now, true) := by
    simp [acquire, cloneRepo, hgit, hcf, Except.map]
  simp only [ingestRepo, if_neg hk, hacq]
  cases hrm : env.rmFails with
  | true => simp [hrm]
  | false => simp [hrm]

/-! ## Claim theorems: acquisition, answer composition, query validation -/

/-- C5. Acquisition dispatch: a reference matching the remote pattern
(protocol-prefixed https GitHub or SSH-style git@ GitHub, the two disjuncts of
isGitHubUrl) is shallow-cloned — the exact command is git clone --depth 1 —
into the timestamp-namespaced temp directory and marked temporary
(shouldCleanup true, surfacing as tempDirCreated); a clone failure carries the
message of the tool; every other reference is used directly as a local path
and marked not temporary; and two temp names coincide exactly when the
rendered timestamps do. -/
theorem c5_acquisition_dispatch (env : IngestEnv) (reference : String) :
    (isGitHubUrl reference = true → env.cloneFails = false →
      cloneRepo env.cloneFails env.cloneErrMsg env.now reference =
        .ok (tmpDirFor env.now,
          "git clone --depth 1 " ++ reference ++ " " ++ tmpDirFor env.now) ∧
      acquire env.cloneFails env.cloneErrMsg env.now reference =
        .ok (tmpDirFor env.now, true)) ∧
    (isGitHubUrl reference = false →
      acquire env.cloneFails env.cloneErrMsg env.now reference = .ok (reference, false)) ∧
    (isGitHubUrl reference = true → env.cloneFails = true →
      acquire env.cloneFails env.cloneErrMsg env.now reference =
        .error ("Failed to clone repository: " ++ env.cloneErrMsg)) ∧
    (∀ k, k ≠ "" → isGitHubUrl reference = true → env.cloneFails = false →
      (ingestRepo env reference k).tempDirCreated = true) ∧
    (∀ k, isGitHubUrl reference = false →
      (ingestRepo env reference k).tempDirCreated = false) ∧
    (∀ n m : Nat, tmpDirFor n = tmpDirFor m ↔ toString n = toString m) := by
  refine ⟨?_, ?_, ?_, ?_, ?_, ?_⟩
  · intro hgit hcf
    constructor
    · simp [cloneRepo, hcf]
    · simp [acquire, cloneRepo, hgit, hcf, Except.map]
  · intro hgit
    simp [acquire, hgit]
  · intro hgit hcf
    simp [acquire, cloneRepo, hgit, hcf, Except.map]
  · intro k hk hgit hcf
    have hacq : acquire env.cloneFails env.cloneErrMsg env.now reference
        = .ok (tmpDirFor env.now, true) := by
      simp [acquire, cloneRepo, hgit, hcf, Except.map]
    simp only [ingestRepo, if_neg hk, hacq]
    cases hrm : env.rmFails with
    | true => simp [hrm]
    | false => simp [hrm]
  · intro k hgit
    by_cases hk : k = ""
    · simp [ingestRepo, hk]
    · have hacq : acquire env.cloneFails env.cloneErrMsg env.now reference
          = .ok (reference, false) := by
        simp [acquire, hgit]
      simp [ingestRepo, if_neg hk, hacq]
  · intro n m
    constructor
    · intro h
      have hd := congrArg String.data h
      rw [tmpDirFor, tmpDirFor, String.data_append, String.data_append] at hd
      exact String.ext (List.append_cancel_left hd)
    · intro h
      rw [tmpDirFor, tmpDirFor, h]

/-- C6. When retrieval returns the empty list (and the key is non-empty), the
system prompt handed to the model is the preamble followed by the literal
placeholder No relevant code found., not an empty context block; and a
successful completion yields a record whose context field is the empty
list. -/
theorem c6_empty_context_placeholder (env : AskEnv) (q k : String)
    (hk : k ≠ "") (hempty : env.searchResult q = .ok []) :
    (askCodebase env q k).promptUsed = some (systemPromptFor "") ∧
    systemPromptFor "" = promptPreamble ++ "No relevant code found." ++ "
" ∧
    (∀ a, env.llm (systemPromptFor "") q = .ok a →
      (askCodebase env q k).result = .ok { answer := a, context := [] }) := by
  have hfmt : formatContext [] = "" := rfl
  refine ⟨?_, rfl, ?_⟩
  · simp only [askCodebase, if_neg hk, hempty]
    rcases hllm : env.llm (systemPromptFor (formatContext [])) q with e | a <;>
      simp [hllm, hfmt]
  · intro a hllm
    simp only [askCodebase, if_neg hk, hempty]
    rw [hfmt] at *
    simp [hllm]

/-- C7. A missing (empty) API key makes askCodebase fail fast with the
configuration error before anything else: the retrieval engine is never
invoked and no model call is made. -/
theorem c7_missing_key_fails_fast (env : AskEnv) (q : String) :
    askCodebase env q "" =
      { result := .error "API Key required", retrievalCalled := false,
        llmCalled := false, promptUsed := none } := rfl

/-- C10. search rejects exactly the empty (falsy) query, throwing the
Query required error; for every non-empty query it resolves with an .ok list
no matter how the provider calls behave — provider failures degrade to the
empty list instead of propagating. -/
theorem c10_query_required (env : SearchEnv) (limit : Nat) :
    semanticSearch env "" limit = .error "Query required" ∧
    ∀ q : String, q ≠ "" → ∃ rs, semanticSearch env q limit = .ok rs := by
  constructor
  · rfl
  · intro q hq
    simp only [semanticSearch, if_neg hq]
    rcases hfm : filenameMatch q with _ | f
    · rcases hsem : env.semanticResults with e | payload
      · exact ⟨[], rfl⟩
      · rcases payload with _ | data
        · exact ⟨[], rfl⟩
        · exact ⟨data.map toResult, rfl⟩
    · rcases hsem : env.semanticResults with e | semP <;>
        rcases hfil : env.fileResults with e2 | filP
      · exact ⟨[], rfl⟩
      · exact ⟨[], rfl⟩
      · exact ⟨[], rfl⟩
      · exact ⟨((mergeUnique (filP.getD []) (semP.getD [])).take (limit + 3)).map toResult, rfl⟩

/-! ## Witnesses: each claim theorem evaluated at a concrete input -/

/-- Witness for the amended C1 theorem at the concrete failing environment. -/
theorem c1_schema_errors_swallowed_witness :
    initSchema schemaFailEnv = ["Weaviate Schema Error: " ++ "schema get failed"] ∧
    ingestRepo
      { schemaFailEnv with
        schemaGetFails := false
        classExists := true
        classDeleteFails := true
        classCreateFails := false } "/repo" "key"
      = ingestRepo schemaFailEnv "/repo" "key" :=
  have h := c1_schema_errors_swallowed_amended schemaFailEnv "schema get failed" (by decide)
  ⟨h.1, h.2 "/repo" "key" false true true false⟩

/-- Witness for the amended C2 theorem: the second of two files is unreadable;
the call fails with that error and only the first file contributed records. -/
theorem c2_read_error_aborts_witness :
    (ingestRepo readFailSecondEnv "/repo" "key").result = .error "EISDIR: illegal operation" ∧
    ∀ rec ∈ (ingestRepo readFailSecondEnv "/repo" "key").written,
      ∃ q ∈ [["a.js"]], ∃ c, rec ∈ fileRecords readFailSecondEnv.split q c :=
  c2_read_error_aborts_amended readFailSecondEnv "/repo" "key"
    [["a.js"]] ["b.js"] [] "EISDIR: illegal operation"
    (by decide) (Or.inl (by decide)) (by decide)
    (by
      intro q hq
      rw [List.mem_singleton.mp hq]
      exact ⟨"y", rfl⟩)
    rfl (fun n => rfl)

/-- Witness for the amended C3 theorem at a concrete hybrid query. -/
theorem c3_hybrid_merge_witness :
    semanticSearch mergeEnv "x.js" 10 =
      .ok (((mergeUnique [mergeFileItem] [mergeSemItem]).take (10 + 3)).map toResult) ∧
    ((mergeUnique [mergeFileItem] [mergeSemItem]).map dedupKey).Nodup ∧
    semanticSearch mergeEnv "x.js" 10 =
      .ok [toResult mergeFileItem, toResult mergeSemItem] :=
  have h := c3_hybrid_merge_amended mergeEnv "x.js" "x.js" 10
    (some [mergeSemItem]) (some [mergeFileItem]) (by decide) (by decide) rfl rfl
  ⟨h.1, h.2.1, by decide⟩

/-- Witness for the C4 cleanup theorem at a concrete healthy clone. -/
theorem c4_cleanup_witness :
    (ingestRepo baseEnv "https://github.com/acme/app" "key").tempDirCreated = true ∧
    (ingestRepo baseEnv "https://github.com/acme/app" "key").rmAttempted = true ∧
    (ingestRepo baseEnv "https://github.com/acme/app" "key").tempDirExists = false ∧
    ∀ b : Bool,
      (ingestRepo { baseEnv with rmFails := b } "https://github.com/acme/app" "key").result
        = (ingestRepo baseEnv "https://github.com/acme/app" "key").result :=
  have h := c4_cleanup_guarantee baseEnv "https://github.com/acme/app" "key"
    (by decide) (by decide) rfl
  ⟨h.1, h.2.1, h.2.2.1 rfl, h.2.2.2⟩

/-- Witness for the C5 acquisition theorem at a GitHub URL and a local path. -/
theorem c5_acquisition_witness :
    cloneRepo baseEnv.cloneFails baseEnv.cloneErrMsg baseEnv.now "https://github.com/acme/app" =
      .ok (tmpDirFor baseEnv.now,
        "git clone --depth 1 " ++ "https://github.com/acme/app" ++ " " ++ tmpDirFor baseEnv.now) ∧
    acquire baseEnv.cloneFails baseEnv.cloneErrMsg baseEnv.now "https://github.com/acme/app" =
      .ok (tmpDirFor baseEnv.now, true) ∧
    acquire baseEnv.cloneFails baseEnv.cloneErrMsg baseEnv.now "/home/dev/repo" =
      .ok ("/home/dev/repo", false) ∧
    (tmpDirFor 42 = tmpDirFor 43 ↔ toString 42 = toString 43) :=
  have h := c5_acquisition_dispatch baseEnv "https://github.com/acme/app"
  have h2 := c5_acquisition_dispatch baseEnv "/home/dev/repo"
  ⟨(h.1 (by decide) rfl).1, (h.1 (by decide) rfl).2, h2.2.1 (by decide),
   h.2.2.2.2.2 42 43⟩

/-- Witness for the C6 placeholder theorem against the empty index. -/
theorem c6_empty_context_witness :
    (askCodebase emptyIndexAskEnv "where is auth" "key").promptUsed =
      some (systemPromptFor "") ∧
    (askCodebase emptyIndexAskEnv "where is auth" "key").result =
      .ok { answer := "There is no code context available.", context := [] } :=
  have h := c6_empty_context_placeholder emptyIndexAskEnv "where is auth" "key"
    (by decide) rfl
  ⟨h.1, h.2.2 "There is no code context available." rfl⟩

/-- Witness for the C8 exclusion theorem at the one record baseEnv writes. -/
theorem c8_exclusion_witness :
    (∀ d ∈ denyDirs,
      d ∉ ({ code := "content", filename := ["src", "app.ts"], language := "ts",
             startLine := 1, endLine := none } : ChunkProps).filename) ∧
    strEndsWith (baseName (["src", "app.ts"] : List String)) ".min.js" = false ∧
    strEndsWith (baseName (["src", "app.ts"] : List String)) ".min.css" = false ∧
    baseName (["src", "app.ts"] : List String) ∉ lockfileNames :=
  c8_exclusion_invariant baseEnv "/repo" "key"
    { code := "content", filename := ["src", "app.ts"], language := "ts",
      startLine := 1, endLine := none }
    (by decide)

/-- Witness for the C9 theorem: the record baseEnv writes carries
startLine 1 and no endLine, and a concrete merged list holds each filename at
most once. -/
theorem c9_startline_witness :
    (({ code := "content", filename := ["src", "app.ts"], language := "ts",
        startLine := 1, endLine := none } : ChunkProps).startLine = 1 ∧
     ({ code := "content", filename := ["src", "app.ts"], language := "ts",
        startLine := 1, endLine := none } : ChunkProps).endLine = none) ∧
    ((mergeUnique [mergeFileItem] [mergeSemItem]).filter
      (fun it => it.filename == "x.js")).length ≤ 1 :=
  ⟨c9_startline_degenerate.1 baseEnv "/repo" "key"
      { code := "content", filename := ["src", "app.ts"], language := "ts",
        startLine := 1, endLine := none }
      (by decide),
   c9_startline_degenerate.2 [mergeFileItem] [mergeSemItem]
     (by
       intro it hit
       rcases hit with h | h
       · rw [List.mem_singleton.mp h]; rfl
       · rw [List.mem_singleton.mp h]; rfl)
     "x.js"⟩

/-- Witness for the C10 theorem: the empty query throws, a non-empty one
resolves. -/
theorem c10_query_required_witness :
    semanticSearch collideEnv "" 5 = .error "Query required" ∧
    ∃ rs, semanticSearch collideEnv "hello" 5 = .ok rs :=
  have h := c10_query_required collideEnv 5
  ⟨h.1, h.2 "hello" (by decide)⟩

end PrismRag
